import Mathlib

/-!
Verification of the rate-limiting / moderation / polling core of the
`fal-bot` Discord bot.  The Python classes and functions of
`src/fal_bot/rate_limiter.py`, `src/fal_bot/moderation.py`,
`src/fal_bot/utils.py` and `src/fal_bot/veo_31.py` are shallowly embedded
as pure Lean functions over an explicit state type; `datetime.now()` is
passed in as an explicit integer-seconds argument at every operation that
reads the clock.
-/

namespace FalBot

/-- One day in seconds, the embedding of `timedelta(days=1)`. -/
def DAY : Int := 86400

/-- State of `RateLimiter` (rate_limiter.py).  `daily_usage` embeds the
nested `defaultdict` `{user_id: {model: [timestamps]}}` as a total function
defaulting to the empty list (a missing key and an empty list are
indistinguishable in the Python code); `active_users` embeds the set of
user ids with an in-flight generation. -/
@[ext] structure RateLimiter where
  daily_usage : Nat → String → List Int
  active_users : Nat → Bool

/-- The `MODEL_LIMITS` dict set in `RateLimiter.__init__`. -/
def MODEL_LIMITS : List (String × Nat) := [("veo", 5), ("default", 50)]

/-- The `CONCURRENT_LIMIT` attribute set in `RateLimiter.__init__`. -/
def CONCURRENT_LIMIT : Nat := 1

/-- `RateLimiter._get_model_limit`: `self.MODEL_LIMITS.get(model, self.MODEL_LIMITS["default"])`. -/
def get_model_limit (model : String) : Nat :=
  (MODEL_LIMITS.lookup model).getD ((MODEL_LIMITS.lookup "default").getD 0)

/-- `RateLimiter._clean_old_timestamps`: replaces the `(user, model)` log by
the timestamps strictly greater than `now - timedelta(days=1)`. -/
def clean_old_timestamps (rl : RateLimiter) (now : Int) (user : Nat) (model : String) :
    RateLimiter :=
  { rl with daily_usage := fun u m =>
      if u = user ∧ m = model then
        (rl.daily_usage u m).filter (fun ts => decide (now - DAY < ts))
      else rl.daily_usage u m }

/-- Python's `min` applied to the non-empty list `t :: ts`. -/
def pyMin (t : Int) (ts : List Int) : Int := ts.foldl min t

/-- `RateLimiter.get_remaining_generations`: prunes, then returns
`max(0, limit - used)`. -/
def get_remaining_generations (rl : RateLimiter) (now : Int) (user : Nat) (model : String) :
    RateLimiter × Int :=
  let rl2 := clean_old_timestamps rl now user model
  let limit := get_model_limit model
  let used := (rl2.daily_usage user model).length
  (rl2, max 0 ((limit : Int) - (used : Int)))

/-- `RateLimiter.get_reset_time`: prunes, then returns `now` if the log is
empty and `min(log) + timedelta(days=1)` otherwise. -/
def get_reset_time (rl : RateLimiter) (now : Int) (user : Nat) (model : String) :
    RateLimiter × Int :=
  let rl2 := clean_old_timestamps rl now user model
  match rl2.daily_usage user model with
  | [] => (rl2, now)
  | t :: ts => (rl2, pyMin t ts + DAY)

/-- `RateLimiter.can_generate`: concurrency check first, then the pruned
model-specific daily-limit check; returns the (possibly pruned) state
together with the `(bool, reason)` pair the Python method returns. -/
def can_generate (rl : RateLimiter) (now : Int) (user : Nat) (model : String) :
    RateLimiter × Bool × String :=
  if rl.active_users user then
    (rl, false,
      "You already have a generation in progress. Please wait for it to complete.")
  else
    let rl2 := clean_old_timestamps rl now user model
    let limit := get_model_limit model
    let used := (rl2.daily_usage user model).length
    if used ≥ limit then
      let r := get_reset_time rl2 now user model
      let timeUntilReset := r.2 - now
      let hours := timeUntilReset.fdiv 3600
      let minutes := (timeUntilReset.emod 3600).fdiv 60
      let modelName := if model = "veo" then "Veo 3.1" else "this model"
      (r.1, false,
        "Daily limit reached for " ++ modelName ++ " (" ++ toString limit ++
          " generations/day). Resets in " ++ toString hours ++ "h " ++
          toString minutes ++ "m.")
    else
      (rl2, true, "")

/-- `RateLimiter.acquire`: re-evaluates `can_generate`; on success adds the
user to the active set and appends `now` to the `(user, model)` log. -/
def acquire (rl : RateLimiter) (now : Int) (user : Nat) (model : String) :
    RateLimiter × Bool :=
  let c := can_generate rl now user model
  if c.2.1 = false then
    (c.1, false)
  else
    let rl2 := { c.1 with
      active_users := fun u => if u = user then true else c.1.active_users u }
    let rl3 := { rl2 with
      daily_usage := fun u m =>
        if u = user ∧ m = model then rl2.daily_usage u m ++ [now]
        else rl2.daily_usage u m }
    (rl3, true)

/-- `RateLimiter.release`: `self.active_users.discard(user_id)`. -/
def release (rl : RateLimiter) (user : Nat) : RateLimiter :=
  { rl with active_users := fun u => if u = user then false else rl.active_users u }

/-- The dict returned by `RateLimiter.get_stats`. -/
structure Stats where
  used : Nat
  remaining : Int
  daily_limit : Nat
  is_generating : Bool
  reset_time : Option Int

/-- `RateLimiter.get_stats`: prunes, then reports `used`, the unclamped
`remaining = limit - used`, the limit, the active flag, and (when
`used > 0`) the reset time. -/
def get_stats (rl : RateLimiter) (now : Int) (user : Nat) (model : String) :
    RateLimiter × Stats :=
  let rl2 := clean_old_timestamps rl now user model
  let limit := get_model_limit model
  let used := (rl2.daily_usage user model).length
  let remaining : Int := (limit : Int) - (used : Int)
  let isActive := rl2.active_users user
  if used > 0 then
    let r := get_reset_time rl2 now user model
    (r.1, ⟨used, remaining, limit, isActive, some r.2⟩)
  else
    (rl2, ⟨used, remaining, limit, isActive, none⟩)

/-! Moderation (src/fal_bot/moderation.py).  The Gemini call and the JSON
decoding are external effects; their outcome is embedded as an explicit
argument describing what the Python code branches on: the call raised, or
the response text parsed as a JSON object (with its optional `safe` and
`reason` fields), or `json.loads` / the fence-splitting raised
(`JSONDecodeError`/`IndexError`), leaving only the raw response text. -/

/-- Outcome of the Gemini moderation call as consumed by the Python code. -/
inductive ModerationCall where
  | raised (err : String)
  | parsed (safeField : Option Bool) (reasonField : Option String)
  | unparseable (resultText : String)

/-- True when `pat` is a prefix of `hay` (character lists). -/
def startsWithChars : List Char → List Char → Bool
  | _, [] => true
  | [], _ :: _ => false
  | c :: cs, d :: ds => c == d && startsWithChars cs ds

/-- True when `pat` occurs contiguously inside `hay` (character lists). -/
def hasSubChars : List Char → List Char → Bool
  | [], pat => pat.isEmpty
  | c :: t, pat => startsWithChars (c :: t) pat || hasSubChars t pat

/-- Python's `pat in hay` on strings. -/
def strHasSub (hay pat : String) : Bool := hasSubChars hay.data pat.data

/-- Python's `str.lower()`, character by character. -/
def pyLower (s : String) : String := String.mk (s.data.map Char.toLower)

/-- The keyword fallback of the two moderation functions:
`"unsafe" in result_lower or "violat" in result_lower or
'"safe": false' in result_lower` with `result_lower = result_text.lower()`. -/
def hasUnsafeSignal (resultText : String) : Bool :=
  let lower := pyLower resultText
  strHasSub lower "unsafe" || strHasSub lower "violat" || strHasSub lower "\"safe\": false"

/-- `moderate_text` (moderation.py lines 9-103): returns `(is_safe, reason)`. -/
def moderate_text : ModerationCall → Bool × String
  | .raised _ => (false, "Unable to verify content safety. Please try again.")
  | .parsed safeField reasonField =>
      if safeField.getD true = false then
        (false, reasonField.getD "Content violates our content policy")
      else (true, "")
  | .unparseable resultText =>
      if hasUnsafeSignal resultText then
        (false, "Content may violate our content policy")
      else (true, "")

/-- `moderate_image` (moderation.py lines 106-217): returns `(is_safe, reason)`. -/
def moderate_image : ModerationCall → Bool × String
  | .raised _ => (false, "Unable to verify image safety. Please try again.")
  | .parsed safeField reasonField =>
      if safeField.getD true = false then
        (false, reasonField.getD "Image contains inappropriate content")
      else (true, "")
  | .unparseable resultText =>
      if hasUnsafeSignal resultText then
        (false, "Image may contain inappropriate content")
      else (true, "")

/-! The queue poll loop.  `fal_bot/queue_client.py` itself is not among the
sources (only its caller `submit_interactive_task` in utils.py is), so the
poller is modelled from the spec (sections 3, 4.2). -/

/-- A status reported by the remote queue service for one poll. -/
inductive RemoteStatus where
  | queued (position : Nat)
  | inProgress (logs : List String)
  | completed (payload : String)
  | failed (error : String)

/-- The `ProgressEvent` tagged union of the spec's data model. -/
inductive ProgressEvent where
  | Queued (position : Nat)
  | InProgress (logs : List String)
  | Completed (payload : String)
  | Failed (error : String)

/-- Whether a remote status is terminal (`COMPLETED | FAILED`). -/
def RemoteStatus.isTerminal : RemoteStatus → Bool
  | .completed _ => true
  | .failed _ => true
  | _ => false

/-- Whether a progress event is terminal (`Completed` or `Failed`). -/
def ProgressEvent.isTerminal : ProgressEvent → Bool
  | .Completed _ => true
  | .Failed _ => true
  | _ => false

/-- Modelled from the spec: `QueueClient.poll_until_ready` lives in
`fal_bot/queue_client.py`, which is absent from the sources.  Per spec
section 4.2 it repeatedly queries remote status until a terminal state is
observed and yields one event per observed status; the remote responses of
successive polls are passed as an explicit finite list. -/
def poll_until_ready : List RemoteStatus → List ProgressEvent
  | [] => []
  | s :: rest =>
    match s with
    | .queued p => .Queued p :: poll_until_ready rest
    | .inProgress l => .InProgress l :: poll_until_ready rest
    | .completed r => [.Completed r]
    | .failed e => [.Failed e]

/-- The driving loop of `submit_interactive_task` (utils.py lines 82-112):
consumes the whole event sequence of one submitted job, then fetches the
final result exactly once (`await client.result(request_handle)`); returns
the consumed events paired with the number of result fetches. -/
def submit_interactive_task (statuses : List RemoteStatus) : List ProgressEvent × Nat :=
  (poll_until_ready statuses, 1)

/-- Outcome of one invocation of the `veo` command. -/
inductive CommandOutcome where
  | rateLimited
  | moderationRejected (reason : String)
  | downstreamError
  | success
deriving DecidableEq

/-- The rate-limiter-relevant skeleton of the `/veo` command
(veo_31.py `command`): acquire a slot for model `"veo"` (returning early
when denied), moderate the prompt, then either fail downstream or succeed;
the `finally` block releases the slot on every path after a successful
acquire. -/
def veo_command (st : RateLimiter) (now : Int) (user : Nat)
    (modResp : ModerationCall) (downstreamOk : Bool) : RateLimiter × CommandOutcome :=
  let a := acquire st now user "veo"
  if a.2 = false then
    (a.1, .rateLimited)
  else
    let mres := moderate_text modResp
    if mres.1 = false then
      (release a.1 user, .moderationRejected mres.2)
    else if downstreamOk then
      (release a.1 user, .success)
    else
      (release a.1 user, .downstreamError)

/-- An `acquire` immediately followed by the guaranteed `release` of the
commands' `finally` blocks; used to express "N successful acquire calls"
(several can only succeed with releases in between). -/
def acquireRelease (rl : RateLimiter) (now : Int) (user : Nat) (model : String) :
    RateLimiter × Bool :=
  let a := acquire rl now user model
  (release a.1 user, a.2)

/-- Runs one `acquireRelease` per timestamp in the list; the boolean is
true exactly when every acquire succeeded. -/
def runAcquires (rl : RateLimiter) (user : Nat) (model : String) :
    List Int → RateLimiter × Bool
  | [] => (rl, true)
  | t :: ts =>
    let a := acquireRelease rl t user model
    let rest := runAcquires a.1 user model ts
    (rest.1, a.2 && rest.2)

/-! Concrete states used by the witnesses. -/

/-- The freshly initialized rate limiter: empty logs, empty active set. -/
def stEmpty : RateLimiter := ⟨fun _ _ => [], fun _ => false⟩

/-- User 1 is mid-generation and has already exhausted the 5/day `"veo"`
quota. -/
def stBusyFull : RateLimiter :=
  ⟨fun u m => if u = 1 ∧ m = "veo" then [10, 20, 30, 40, 50] else [],
   fun u => decide (u = 1)⟩

/-- User 1 has five retained `"veo"` timestamps and is not generating. -/
def stFiveVeo : RateLimiter :=
  ⟨fun u m => if u = 1 ∧ m = "veo" then [1000, 2000, 3000, 4000, 5000] else [],
   fun _ => false⟩

/-- User 1 has a single `"veo"` timestamp recorded at time 0. -/
def stOneVeo : RateLimiter :=
  ⟨fun u m => if u = 1 ∧ m = "veo" then [0] else [], fun _ => false⟩

/-! Basic unfolding lemmas about the embedded operations. -/

theorem get_model_limit_eq (m : String) :
    get_model_limit m = if m = "veo" then 5 else 50 := by
  by_cases h : m = "veo"
  · simp [get_model_limit, MODEL_LIMITS, List.lookup, h]
  · by_cases h2 : m = "default"
    · simp [get_model_limit, MODEL_LIMITS, List.lookup, h, h2]
    · have hb1 : (m == "veo") = false := by simp [h]
      have hb2 : (m == "default") = false := by simp [h2]
      simp [get_model_limit, MODEL_LIMITS, List.lookup, h, hb1, hb2]

theorem get_model_limit_pos (m : String) : 0 < get_model_limit m := by
  rw [get_model_limit_eq]; split <;> norm_num

theorem clean_daily_self (rl : RateLimiter) (now : Int) (u : Nat) (m : String) :
    (clean_old_timestamps rl now u m).daily_usage u m
      = (rl.daily_usage u m).filter (fun ts => decide (now - DAY < ts)) := by
  simp [clean_old_timestamps]

theorem clean_daily_other (rl : RateLimiter) (now : Int) (u : Nat) (m : String)
    (u' : Nat) (m' : String) (h : ¬(u' = u ∧ m' = m)) :
    (clean_old_timestamps rl now u m).daily_usage u' m' = rl.daily_usage u' m' := by
  simp [clean_old_timestamps, h]

theorem clean_active (rl : RateLimiter) (now : Int) (u : Nat) (m : String) :
    (clean_old_timestamps rl now u m).active_users = rl.active_users := rfl

theorem clean_clean (rl : RateLimiter) (now : Int) (u : Nat) (m : String) :
    clean_old_timestamps (clean_old_timestamps rl now u m) now u m
      = clean_old_timestamps rl now u m := by
  ext u' m' ts
  · by_cases h : u' = u ∧ m' = m
    · simp [clean_old_timestamps, h.1, h.2, List.filter_filter]
    · simp only [clean_old_timestamps]
      simp [h]
  · rfl

theorem get_reset_time_state (rl : RateLimiter) (now : Int) (u : Nat) (m : String) :
    (get_reset_time rl now u m).1 = clean_old_timestamps rl now u m := by
  cases h2 : (clean_old_timestamps rl now u m).daily_usage u m <;>
    simp [get_reset_time, h2]

theorem get_reset_time_val (rl : RateLimiter) (now : Int) (u : Nat) (m : String)
    (t : Int) (ts : List Int)
    (h : (clean_old_timestamps rl now u m).daily_usage u m = t :: ts) :
    (get_reset_time rl now u m).2 = pyMin t ts + DAY := by
  simp [get_reset_time, h]

theorem can_generate_active (rl : RateLimiter) (now : Int) (u : Nat) (m : String)
    (h : rl.active_users u = true) :
    can_generate rl now u m = (rl, false,
      "You already have a generation in progress. Please wait for it to complete.") := by
  simp [can_generate, h]

theorem can_generate_quota_state (rl : RateLimiter) (now : Int) (u : Nat) (m : String)
    (h1 : rl.active_users u = false)
    (h2 : get_model_limit m ≤
      ((rl.daily_usage u m).filter fun ts => decide (now - DAY < ts)).length) :
    (can_generate rl now u m).1 = clean_old_timestamps rl now u m
      ∧ (can_generate rl now u m).2.1 = false := by
  have hc : ((clean_old_timestamps rl now u m).daily_usage u m).length ≥
      get_model_limit m := by
    rw [clean_daily_self]; exact h2
  constructor
  · simp [can_generate, h1, hc, get_reset_time_state, clean_clean]
  · simp [can_generate, h1, hc]

theorem can_generate_ok (rl : RateLimiter) (now : Int) (u : Nat) (m : String)
    (h1 : rl.active_users u = false)
    (h2 : ((rl.daily_usage u m).filter fun ts => decide (now - DAY < ts)).length <
      get_model_limit m) :
    can_generate rl now u m = (clean_old_timestamps rl now u m, true, "") := by
  have hc : ¬(((clean_old_timestamps rl now u m).daily_usage u m).length ≥
      get_model_limit m) := by
    rw [clean_daily_self]; omega
  simp [can_generate, h1, hc]

theorem acquire_active (rl : RateLimiter) (now : Int) (u : Nat) (m : String)
    (h : rl.active_users u = true) :
    acquire rl now u m = (rl, false) := by
  simp [acquire, can_generate_active rl now u m h]

theorem acquire_ok_spec (rl : RateLimiter) (now : Int) (u : Nat) (m : String)
    (h1 : rl.active_users u = false)
    (h2 : ((rl.daily_usage u m).filter fun ts => decide (now - DAY < ts)).length <
      get_model_limit m) :
    (acquire rl now u m).2 = true
      ∧ (acquire rl now u m).1.daily_usage u m
          = ((rl.daily_usage u m).filter fun ts => decide (now - DAY < ts)) ++ [now]
      ∧ (∀ u' m', ¬(u' = u ∧ m' = m) →
          (acquire rl now u m).1.daily_usage u' m' = rl.daily_usage u' m')
      ∧ (acquire rl now u m).1.active_users
          = fun u' => if u' = u then true else rl.active_users u' := by
  have key := can_generate_ok rl now u m h1 h2
  refine ⟨?_, ?_, ?_, ?_⟩
  · simp [acquire, key]
  · simp [acquire, key, clean_daily_self]
  · intro u' m' h
    simp [acquire, key, clean_daily_other rl now u m u' m' h, h]
  · funext u'
    simp [acquire, key, clean_old_timestamps]

theorem acquire_true_conditions (rl : RateLimiter) (now : Int) (u : Nat) (m : String)
    (h : (acquire rl now u m).2 = true) :
    rl.active_users u = false
      ∧ ((rl.daily_usage u m).filter fun ts => decide (now - DAY < ts)).length <
          get_model_limit m := by
  cases hb : rl.active_users u
  · by_cases h2 : ((rl.daily_usage u m).filter fun ts => decide (now - DAY < ts)).length <
        get_model_limit m
    · exact ⟨rfl, h2⟩
    · exfalso
      have hq := can_generate_quota_state rl now u m hb (Nat.le_of_not_lt h2)
      simp [acquire, hq.2] at h
  · exfalso
    rw [acquire_active rl now u m hb] at h
    simp at h

theorem acquire_false_spec (rl : RateLimiter) (now : Int) (u : Nat) (m : String)
    (h : (acquire rl now u m).2 = false) :
    (acquire rl now u m).1.active_users = rl.active_users
      ∧ ((acquire rl now u m).1 = rl
          ∨ (acquire rl now u m).1 = clean_old_timestamps rl now u m) := by
  cases hb : rl.active_users u
  · by_cases h2 : ((rl.daily_usage u m).filter fun ts => decide (now - DAY < ts)).length <
        get_model_limit m
    · exfalso
      have := (acquire_ok_spec rl now u m hb h2).1
      rw [this] at h
      simp at h
    · have hq := can_generate_quota_state rl now u m hb (Nat.le_of_not_lt h2)
      have heq : acquire rl now u m = ((can_generate rl now u m).1, false) := by
        simp [acquire, hq.2]
      rw [heq, hq.1]
      exact ⟨clean_active rl now u m, Or.inr rfl⟩
  · rw [acquire_active rl now u m hb]
    exact ⟨rfl, Or.inl rfl⟩

theorem release_daily (rl : RateLimiter) (u : Nat) :
    (release rl u).daily_usage = rl.daily_usage := rfl

theorem release_active_self (rl : RateLimiter) (u : Nat) :
    (release rl u).active_users u = false := by
  simp [release]

theorem release_active_other (rl : RateLimiter) (u : Nat) (u' : Nat) (h : u' ≠ u) :
    (release rl u).active_users u' = rl.active_users u' := by
  simp [release, h]

theorem get_stats_used (rl : RateLimiter) (now : Int) (u : Nat) (m : String) :
    (get_stats rl now u m).2.used
      = ((rl.daily_usage u m).filter fun ts => decide (now - DAY < ts)).length := by
  by_cases h : 0 < ((rl.daily_usage u m).filter fun ts => decide (now - DAY < ts)).length <;>
    simp [get_stats, clean_daily_self, h]

theorem get_stats_remaining (rl : RateLimiter) (now : Int) (u : Nat) (m : String) :
    (get_stats rl now u m).2.remaining
      = (get_model_limit m : Int)
          - ((rl.daily_usage u m).filter fun ts => decide (now - DAY < ts)).length := by
  by_cases h : 0 < ((rl.daily_usage u m).filter fun ts => decide (now - DAY < ts)).length <;>
    simp [get_stats, clean_daily_self, h]

/-- C1: single-flight concurrency is global per user.  After a successful
`acquire` (which puts the user in the active set) and before any
`release`, every further `acquire` for that user returns `false` and every
`can_generate` returns `false` with the in-progress reason, for any later
clock value and any resource key, independent of remaining quota. -/
theorem claim_C1_single_flight (st : RateLimiter) (now now' : Int) (u : Nat)
    (m m' : String) (h : (acquire st now u m).2 = true) :
    (acquire st now u m).1.active_users u = true
      ∧ (acquire (acquire st now u m).1 now' u m').2 = false
      ∧ (can_generate (acquire st now u m).1 now' u m').2.1 = false
      ∧ (can_generate (acquire st now u m).1 now' u m').2.2
          = "You already have a generation in progress. Please wait for it to complete." := by
  obtain ⟨h1, h2⟩ := acquire_true_conditions st now u m h
  have hact : (acquire st now u m).1.active_users u = true := by
    rw [(acquire_ok_spec st now u m h1 h2).2.2.2]; simp
  refine ⟨hact, ?_, ?_, ?_⟩
  · rw [acquire_active _ now' u m' hact]
  · rw [can_generate_active _ now' u m' hact]
  · rw [can_generate_active _ now' u m' hact]

theorem claim_C1_single_flight_witness :
    (acquire (acquire stEmpty 100 1 "veo").1 2000 1 "default").2 = false :=
  (claim_C1_single_flight stEmpty 100 2000 1 "veo" "default" (by decide)).2.1

/-- C5: the concurrency check comes first and unconditionally.  For an
active user, `can_generate` returns the unchanged state (no pruning, no
reset-time computation) together with `false` and the in-progress reason,
whatever the quota situation of the requested resource is. -/
theorem claim_C5_concurrency_precedence (st : RateLimiter) (now : Int) (u : Nat)
    (m : String) (h : st.active_users u = true) :
    can_generate st now u m = (st, false,
      "You already have a generation in progress. Please wait for it to complete.") :=
  can_generate_active st now u m h

theorem claim_C5_concurrency_precedence_witness :
    can_generate stBusyFull 1000000 1 "veo" = (stBusyFull, false,
      "You already have a generation in progress. Please wait for it to complete.") :=
  claim_C5_concurrency_precedence stBusyFull 1000000 1 "veo" (by decide)

/-- C7: `release` never fails (it is a total function here, embedding
`set.discard`), releasing twice equals releasing once, it never touches
any timestamp log, it leaves every other user's active flag unchanged, and
releasing a user who is not active is a no-op on the whole state. -/
theorem claim_C7_release_idempotent (st : RateLimiter) (u : Nat) :
    release (release st u) u = release st u
      ∧ (release st u).daily_usage = st.daily_usage
      ∧ (∀ u', u' ≠ u → (release st u).active_users u' = st.active_users u')
      ∧ (st.active_users u = false → release st u = st) := by
  refine ⟨?_, rfl, ?_, ?_⟩
  · apply RateLimiter.ext
    · rfl
    · funext u'
      by_cases h : u' = u <;> simp [release, h]
  · intro u' h
    exact release_active_other st u u' h
  · intro h
    apply RateLimiter.ext
    · rfl
    · funext u'
      by_cases hu : u' = u
      · subst hu; simp [release, h]
      · simp [release, hu]

theorem claim_C7_release_idempotent_witness :
    release (release stEmpty 1) 1 = release stEmpty 1 :=
  (claim_C7_release_idempotent stEmpty 1).1

/-- C3: window expiry is strict.  Pruning keeps exactly the timestamps
strictly greater than `now - 24h`; hence a timestamp `T` is retained for
reads at any `now < T + 24h` and dropped at any `now ≥ T + 24h` (in
particular at exactly `T + 24h`), and a log holding exactly `[T]`
contributes `1` to `get_stats.used` strictly before `T + 24h` and `0` from
`T + 24h` on. -/
theorem claim_C3_window_expiry (st : RateLimiter) (now : Int) (u : Nat) (m : String)
    (T : Int) :
    ((clean_old_timestamps st now u m).daily_usage u m
        = (st.daily_usage u m).filter fun ts => decide (now - DAY < ts))
      ∧ (T ∈ (clean_old_timestamps st now u m).daily_usage u m
          ↔ T ∈ st.daily_usage u m ∧ now < T + DAY)
      ∧ (st.daily_usage u m = [T] →
          (get_stats st now u m).2.used = if now < T + DAY then 1 else 0) := by
  refine ⟨clean_daily_self st now u m, ?_, ?_⟩
  · rw [clean_daily_self, List.mem_filter]
    constructor
    · rintro ⟨h1, h2⟩
      have := of_decide_eq_true h2
      exact ⟨h1, by omega⟩
    · rintro ⟨h1, h2⟩
      exact ⟨h1, decide_eq_true (by omega)⟩
  · intro h
    rw [get_stats_used, h]
    by_cases hT : now < T + DAY
    · have hd : decide (now - DAY < T) = true := decide_eq_true (by omega)
      simp [hd, hT]
    · have hd : decide (now - DAY < T) = false := decide_eq_false (by omega)
      simp [hd, hT]

theorem claim_C3_window_expiry_witness :
    ((get_stats stOneVeo 86400 1 "veo").2.used = if (86400 : Int) < 0 + DAY then 1 else 0)
      ∧ ((get_stats stOneVeo 86399 1 "veo").2.used
          = if (86399 : Int) < 0 + DAY then 1 else 0) :=
  ⟨(claim_C3_window_expiry stOneVeo 86400 1 "veo" 0).2.2 rfl,
   (claim_C3_window_expiry stOneVeo 86399 1 "veo" 0).2.2 rfl⟩

/-- C4: acquire is atomic on denial.  When `acquire` returns `false` the
active set is untouched, every timestamp log of every user and resource is
a sublist of what it was (nothing appended), and the state is either
exactly unchanged (concurrency denial) or exactly the lazily pruned state
(quota denial).  When `acquire` returns `true` it sets exactly this user's
active flag and the new `(user, resource)` log is the pruned old log with
exactly one new timestamp appended; all other logs are untouched. -/
theorem claim_C4_acquire_atomic (st : RateLimiter) (now : Int) (u : Nat) (m : String) :
    ((acquire st now u m).2 = false →
        (acquire st now u m).1.active_users = st.active_users
          ∧ (∀ u' m', ((acquire st now u m).1.daily_usage u' m').Sublist
              (st.daily_usage u' m'))
          ∧ ((acquire st now u m).1 = st
              ∨ (acquire st now u m).1 = clean_old_timestamps st now u m))
      ∧ ((acquire st now u m).2 = true →
          (acquire st now u m).1.active_users
              = (fun u' => if u' = u then true else st.active_users u')
            ∧ (acquire st now u m).1.daily_usage u m
                = ((st.daily_usage u m).filter fun ts => decide (now - DAY < ts)) ++ [now]
            ∧ ∀ u' m', ¬(u' = u ∧ m' = m) →
                (acquire st now u m).1.daily_usage u' m' = st.daily_usage u' m') := by
  constructor
  · intro h
    obtain ⟨ha, hd⟩ := acquire_false_spec st now u m h
    refine ⟨ha, ?_, hd⟩
    intro u' m'
    rcases hd with hd | hd
    · rw [hd]
    · rw [hd]
      by_cases hu : u' = u ∧ m' = m
      · rw [hu.1, hu.2, clean_daily_self]
        exact List.filter_sublist _
      · rw [clean_daily_other st now u m u' m' hu]
  · intro h
    obtain ⟨h1, h2⟩ := acquire_true_conditions st now u m h
    obtain ⟨_, hlog, hother, hact⟩ := acquire_ok_spec st now u m h1 h2
    exact ⟨hact, hlog, hother⟩

theorem claim_C4_acquire_atomic_witness :
    (acquire stBusyFull 100 1 "veo").1.active_users = stBusyFull.active_users :=
  ((claim_C4_acquire_atomic stBusyFull 100 1 "veo").1 (by decide)).1

/-- C10: `release` only touches the active set — every `daily_usage` log
survives it — and hence after any non-rate-limited run of the `/veo`
command (moderation rejection, downstream failure or success, all of which
release the slot in the `finally` block) the user's `"veo"` log still
carries the timestamp appended by the successful `acquire`: a read at the
same instant counts one more use than the pruned pre-call log, while the
slot itself is free again. -/
theorem claim_C10_release_preserves_quota (st : RateLimiter) (u : Nat) :
    (∀ st' : RateLimiter, (release st' u).daily_usage = st'.daily_usage)
      ∧ ∀ now modResp dsOk,
          (veo_command st now u modResp dsOk).2 ≠ CommandOutcome.rateLimited →
            (veo_command st now u modResp dsOk).1.daily_usage u "veo"
                = ((st.daily_usage u "veo").filter fun ts => decide (now - DAY < ts)) ++ [now]
              ∧ (get_stats (veo_command st now u modResp dsOk).1 now u "veo").2.used
                  = ((st.daily_usage u "veo").filter fun ts => decide (now - DAY < ts)).length
                      + 1
              ∧ (veo_command st now u modResp dsOk).1.active_users u = false := by
  refine ⟨fun st' => rfl, ?_⟩
  intro now modResp dsOk h
  cases hx : (acquire st now u "veo").2 with
  | false =>
    exfalso
    apply h
    simp [veo_command, hx]
  | true =>
    have hstate : (veo_command st now u modResp dsOk).1
        = release (acquire st now u "veo").1 u := by
      by_cases hm : (moderate_text modResp).1 = false
      · simp [veo_command, hx, hm]
      · by_cases hd : dsOk = true
        · simp [veo_command, hx, hm, hd]
        · simp [veo_command, hx, hm, hd]
    obtain ⟨h1, h2⟩ := acquire_true_conditions st now u "veo" hx
    obtain ⟨_, hlog, _, _⟩ := acquire_ok_spec st now u "veo" h1 h2
    have hdaily : (veo_command st now u modResp dsOk).1.daily_usage u "veo"
        = ((st.daily_usage u "veo").filter fun ts => decide (now - DAY < ts)) ++ [now] := by
      rw [hstate, release_daily, hlog]
    refine ⟨hdaily, ?_, ?_⟩
    · rw [get_stats_used, hdaily, List.filter_append]
      have hidem : (((st.daily_usage u "veo").filter fun ts => decide (now - DAY < ts)).filter
          fun ts => decide (now - DAY < ts))
          = (st.daily_usage u "veo").filter fun ts => decide (now - DAY < ts) :=
        List.filter_eq_self.mpr (fun a ha => (List.mem_filter.mp ha).2)
      have hnow : decide (now - DAY < now) = true := decide_eq_true (by unfold DAY; omega)
      have hDAY : (0 : Int) < DAY := by unfold DAY; omega
      simp [hidem, List.filter_cons, hnow, hDAY]
    · rw [hstate]
      exact release_active_self _ u

theorem claim_C10_release_preserves_quota_witness :
    (veo_command stEmpty 100 1 (ModerationCall.raised "boom") true).1.daily_usage 1 "veo"
      = ((stEmpty.daily_usage 1 "veo").filter fun ts => decide ((100 : Int) - DAY < ts))
          ++ [100] :=
  ((claim_C10_release_preserves_quota stEmpty 1).2 100 (ModerationCall.raised "boom") true
    (by decide)).1

theorem can_generate_quota_reason (rl : RateLimiter) (now : Int) (u : Nat) (m : String)
    (h1 : rl.active_users u = false)
    (h2 : get_model_limit m ≤
      ((rl.daily_usage u m).filter fun ts => decide (now - DAY < ts)).length)
    (t : Int) (ts' : List Int)
    (hlog : (rl.daily_usage u m).filter (fun ts => decide (now - DAY < ts)) = t :: ts') :
    (can_generate rl now u m).2.2
      = "Daily limit reached for " ++ (if m = "veo" then "Veo 3.1" else "this model")
          ++ " (" ++ toString (get_model_limit m)
          ++ " generations/day). Resets in "
          ++ toString ((pyMin t ts' + DAY - now).fdiv 3600) ++ "h "
          ++ toString (((pyMin t ts' + DAY - now).emod 3600).fdiv 60) ++ "m." := by
  have hused : ((clean_old_timestamps rl now u m).daily_usage u m).length ≥
      get_model_limit m := by
    rw [clean_daily_self]; exact h2
  have h' : (clean_old_timestamps (clean_old_timestamps rl now u m) now u m).daily_usage u m
      = t :: ts' := by
    rw [clean_clean, clean_daily_self]; exact hlog
  have hr := get_reset_time_val (clean_old_timestamps rl now u m) now u m t ts' h'
  simp [can_generate, h1, hused, hr]

/-- C6: the quota-exceeded reason.  For a non-active user whose pruned
timestamp count has reached the resource limit, `can_generate` denies with
the daily-limit reason, whose reset clause is "Resets in Hh Mm." where
`H = (oldest + 24h - now) fdiv 3600` and `M = ((oldest + 24h - now) mod 3600)
fdiv 60` — floor (for the positive reset delta: truncating) division to
whole hours and whole minutes of the oldest retained timestamp's expiry,
no rounding. -/
theorem claim_C6_quota_reason (st : RateLimiter) (now : Int) (u : Nat) (m : String)
    (h1 : st.active_users u = false)
    (h2 : get_model_limit m ≤
      ((st.daily_usage u m).filter fun ts => decide (now - DAY < ts)).length) :
    (can_generate st now u m).2.1 = false
      ∧ ∀ t ts',
          (st.daily_usage u m).filter (fun ts => decide (now - DAY < ts)) = t :: ts' →
          (can_generate st now u m).2.2
            = "Daily limit reached for " ++ (if m = "veo" then "Veo 3.1" else "this model")
                ++ " (" ++ toString (get_model_limit m)
                ++ " generations/day). Resets in "
                ++ toString ((pyMin t ts' + DAY - now).fdiv 3600) ++ "h "
                ++ toString (((pyMin t ts' + DAY - now).emod 3600).fdiv 60) ++ "m." := by
  refine ⟨(can_generate_quota_state st now u m h1 h2).2, ?_⟩
  intro t ts' hlog
  exact can_generate_quota_reason st now u m h1 h2 t ts' hlog

theorem claim_C6_quota_reason_witness :
    (can_generate stFiveVeo 10000 1 "veo").2.2
      = "Daily limit reached for Veo 3.1 (5 generations/day). Resets in 21h 30m." := by
  have h := (claim_C6_quota_reason stFiveVeo 10000 1 "veo" (by decide) (by decide)).2
    1000 [2000, 3000, 4000, 5000] (by decide)
  rw [h]
  rfl

theorem runAcquires_ok (u : Nat) (m : String) (now : Int) (ts : List Int) :
    ∀ (st : RateLimiter) (acc : List Int),
      st.daily_usage u m = acc →
      st.active_users u = false →
      (∀ x ∈ acc, now - DAY < x) →
      (∀ t ∈ ts, now - DAY < t ∧ t ≤ now) →
      acc.length ≤ get_model_limit m →
      (runAcquires st u m ts).2 = true →
      (runAcquires st u m ts).1.daily_usage u m = acc ++ ts
        ∧ (runAcquires st u m ts).1.active_users u = false
        ∧ acc.length + ts.length ≤ get_model_limit m := by
  induction ts with
  | nil =>
    intro st acc hlog hact _ _ hlen _
    exact ⟨by simp [runAcquires, hlog], by simp [runAcquires, hact], by simpa using hlen⟩
  | cons t ts ih =>
    intro st acc hlog hact haccmem htsmem hlen hok
    have hok' : (acquire st t u m).2 = true
        ∧ (runAcquires (release (acquire st t u m).1 u) u m ts).2 = true := by
      simpa [runAcquires, acquireRelease, Bool.and_eq_true] using hok
    obtain ⟨h1, h2⟩ := acquire_true_conditions st t u m hok'.1
    obtain ⟨_, hlog', _, hact'⟩ := acquire_ok_spec st t u m h1 h2
    have hfil : acc.filter (fun x => decide (t - DAY < x)) = acc := by
      apply List.filter_eq_self.mpr
      intro x hx
      have hx1 := haccmem x hx
      have ht1 := (htsmem t (by simp)).2
      exact decide_eq_true (by omega)
    rw [hlog, hfil] at h2
    have hlog'' : (release (acquire st t u m).1 u).daily_usage u m = acc ++ [t] := by
      rw [release_daily, hlog', hlog, hfil]
    have hact'' : (release (acquire st t u m).1 u).active_users u = false :=
      release_active_self _ u
    have haccmem'' : ∀ x ∈ acc ++ [t], now - DAY < x := by
      intro x hx
      rcases List.mem_append.mp hx with hx' | hx'
      · exact haccmem x hx'
      · have : x = t := by simpa using hx'
        rw [this]
        exact (htsmem t (by simp)).1
    have htsmem'' : ∀ t' ∈ ts, now - DAY < t' ∧ t' ≤ now :=
      fun t' ht' => htsmem t' (List.mem_cons_of_mem _ ht')
    have hlen'' : (acc ++ [t]).length ≤ get_model_limit m := by
      simp only [List.length_append, List.length_singleton]
      omega
    obtain ⟨hfin1, hfin2, hfin3⟩ :=
      ih (release (acquire st t u m).1 u) (acc ++ [t]) hlog'' hact'' haccmem'' htsmem''
        hlen'' hok'.2
    refine ⟨?_, ?_, ?_⟩
    · have : (runAcquires st u m (t :: ts)).1
          = (runAcquires (release (acquire st t u m).1 u) u m ts).1 := by
        simp [runAcquires, acquireRelease]
      rw [this, hfin1]
      simp
    · have : (runAcquires st u m (t :: ts)).1
          = (runAcquires (release (acquire st t u m).1 u) u m ts).1 := by
        simp [runAcquires, acquireRelease]
      rw [this]
      exact hfin2
    · simp only [List.length_append, List.length_singleton] at hfin3
      simp only [List.length_cons]
      omega

/-- C2: quota monotonicity.  Starting from a state whose `(user, resource)`
log is empty (and whose slot is free), after `N` successful `acquire`
calls — each followed by its guaranteed `release` — at timestamps that all
lie in the trailing 24-hour window of `now`, `get_stats` at `now` reports
`used = N` and `remaining = limit - N`, which (since more than `limit`
acquires cannot all succeed inside one window) equals `max 0 (limit - N)`
and is never negative. -/
theorem claim_C2_quota_monotonic (st : RateLimiter) (u : Nat) (m : String)
    (ts : List Int) (now : Int)
    (hlog : st.daily_usage u m = [])
    (hact : st.active_users u = false)
    (hwin : ∀ t ∈ ts, now - DAY < t ∧ t ≤ now)
    (hok : (runAcquires st u m ts).2 = true) :
    (get_stats (runAcquires st u m ts).1 now u m).2.used = ts.length
      ∧ (get_stats (runAcquires st u m ts).1 now u m).2.remaining
          = (get_model_limit m : Int) - ts.length
      ∧ (get_stats (runAcquires st u m ts).1 now u m).2.remaining
          = max 0 ((get_model_limit m : Int) - ts.length)
      ∧ 0 ≤ (get_stats (runAcquires st u m ts).1 now u m).2.remaining := by
  obtain ⟨hfinal, _, hbound⟩ :=
    runAcquires_ok u m now ts st [] hlog hact (by simp) hwin (Nat.zero_le _) hok
  have hts : (runAcquires st u m ts).1.daily_usage u m = ts := by simpa using hfinal
  have hfilter : ts.filter (fun x => decide (now - DAY < x)) = ts :=
    List.filter_eq_self.mpr (fun x hx => decide_eq_true (hwin x hx).1)
  have hused := get_stats_used (runAcquires st u m ts).1 now u m
  rw [hts, hfilter] at hused
  have hrem := get_stats_remaining (runAcquires st u m ts).1 now u m
  rw [hts, hfilter] at hrem
  have hb : (ts.length : Int) ≤ (get_model_limit m : Int) := by
    exact_mod_cast (by simpa using hbound)
  refine ⟨hused, hrem, ?_, ?_⟩
  · rw [hrem]
    exact (max_eq_right (by omega)).symm
  · rw [hrem]
    omega

theorem claim_C2_quota_monotonic_witness :
    (get_stats (runAcquires stEmpty 1 "veo" [10, 20, 30]).1 100 1 "veo").2.used
        = [10, 20, 30].length
      ∧ (get_stats (runAcquires stEmpty 1 "veo" [10, 20, 30]).1 100 1 "veo").2.remaining
          = (get_model_limit "veo" : Int) - [10, 20, 30].length :=
  ⟨(claim_C2_quota_monotonic stEmpty 1 "veo" [10, 20, 30] 100 rfl rfl (by decide)
      (by decide)).1,
   (claim_C2_quota_monotonic stEmpty 1 "veo" [10, 20, 30] 100 rfl rfl (by decide)
      (by decide)).2.1⟩

/-- C8 counterexample: a model response that cannot be parsed as JSON and
contains none of the unsafe keywords is ALLOWED by `moderate_text`
(`(true, "")`), not rejected with the "unable to verify" reason as the
claim states — the parse-failure fallback fails open, not closed. -/
theorem claim_C8_counterexample :
    (moderate_text (ModerationCall.unparseable "hello")).1 = true
      ∧ moderate_text (ModerationCall.unparseable "hello")
          ≠ (false, "Unable to verify content safety. Please try again.") := by
  constructor
  · decide
  · decide

/-- C8 amended: fail-closed holds for raised internal errors only.  When
the Gemini call raises, `moderate_text` / `moderate_image` return
`safe = false` with the generic "unable to verify" reason, and the `/veo`
orchestration then never reaches submission (its outcome is the
rate-limit early return or the moderation rejection).  When the response
is merely unparseable, the keyword fallback rejects only if the lowercased
text contains "unsafe", "violat" or "\"safe\": false", and otherwise
returns `safe = true` (fails open). -/
theorem claim_C8_fail_closed_amended :
    (∀ e, moderate_text (ModerationCall.raised e)
        = (false, "Unable to verify content safety. Please try again."))
      ∧ (∀ e, moderate_image (ModerationCall.raised e)
          = (false, "Unable to verify image safety. Please try again."))
      ∧ (∀ t, hasUnsafeSignal t = true →
          moderate_text (ModerationCall.unparseable t)
            = (false, "Content may violate our content policy"))
      ∧ (∀ t, hasUnsafeSignal t = false →
          moderate_text (ModerationCall.unparseable t) = (true, ""))
      ∧ (∀ st now u e ds,
          (veo_command st now u (ModerationCall.raised e) ds).2
              = CommandOutcome.rateLimited
            ∨ (veo_command st now u (ModerationCall.raised e) ds).2
                = CommandOutcome.moderationRejected
                    "Unable to verify content safety. Please try again.") := by
  refine ⟨fun e => rfl, fun e => rfl, ?_, ?_, ?_⟩
  · intro t h
    simp [moderate_text, h]
  · intro t h
    simp [moderate_text, h]
  · intro st now u e ds
    cases hx : (acquire st now u "veo").2 with
    | false =>
      left
      simp [veo_command, hx]
    | true =>
      right
      simp [veo_command, hx, moderate_text]

theorem claim_C8_fail_closed_amended_witness :
    moderate_text (ModerationCall.raised "boom")
      = (false, "Unable to verify content safety. Please try again.") :=
  claim_C8_fail_closed_amended.1 "boom"

theorem getLast_eq_some_mem {α : Type} :
    ∀ (l : List α) (a : α), l.getLast? = some a → a ∈ l := by
  intro l
  induction l with
  | nil => intro a h; simp [List.getLast?] at h
  | cons x xs ih =>
    intro a h
    cases xs with
    | nil =>
      simp [List.getLast?_singleton] at h
      simp [h]
    | cons y ys =>
      rw [List.getLast?_cons_cons] at h
      exact List.mem_cons_of_mem x (ih a h)

theorem poll_decomp (statuses : List RemoteStatus)
    (h : ∃ s ∈ statuses, s.isTerminal = true) :
    ∃ l e, poll_until_ready statuses = l ++ [e]
      ∧ (∀ x ∈ l, x.isTerminal = false) ∧ e.isTerminal = true := by
  induction statuses with
  | nil => simp at h
  | cons s rest ih =>
    cases s with
    | queued p =>
      have h' : ∃ s ∈ rest, s.isTerminal = true := by
        rcases h with ⟨x, hx, hterm⟩
        rcases List.mem_cons.mp hx with rfl | hx'
        · exact absurd hterm (by simp [RemoteStatus.isTerminal])
        · exact ⟨x, hx', hterm⟩
      obtain ⟨l, e, hle, hl, he⟩ := ih h'
      refine ⟨.Queued p :: l, e, by simp [poll_until_ready, hle], ?_, he⟩
      intro x hx
      rcases List.mem_cons.mp hx with rfl | hx'
      · rfl
      · exact hl x hx'
    | inProgress lg =>
      have h' : ∃ s ∈ rest, s.isTerminal = true := by
        rcases h with ⟨x, hx, hterm⟩
        rcases List.mem_cons.mp hx with rfl | hx'
        · exact absurd hterm (by simp [RemoteStatus.isTerminal])
        · exact ⟨x, hx', hterm⟩
      obtain ⟨l, e, hle, hl, he⟩ := ih h'
      refine ⟨.InProgress lg :: l, e, by simp [poll_until_ready, hle], ?_, he⟩
      intro x hx
      rcases List.mem_cons.mp hx with rfl | hx'
      · rfl
      · exact hl x hx'
    | completed r => exact ⟨[], .Completed r, rfl, by simp, rfl⟩
    | failed er => exact ⟨[], .Failed er, rfl, by simp, rfl⟩

/-- C9: poll sequence termination.  For any finite status sequence whose
last element is terminal, the event sequence consumed by the driving loop
of `submit_interactive_task` is finite and splits as non-terminal events
followed by exactly one terminal event — a `Completed` or a `Failed`,
never both, never neither — after which the sequence ends, and the final
result is fetched exactly once. -/
theorem claim_C9_poll_termination (statuses : List RemoteStatus) (s : RemoteStatus)
    (hlast : statuses.getLast? = some s) (hterm : s.isTerminal = true) :
    (∃ l e, (submit_interactive_task statuses).1 = l ++ [e]
        ∧ (∀ x ∈ l, x.isTerminal = false)
        ∧ e.isTerminal = true
        ∧ ((∃ r, e = ProgressEvent.Completed r) ∨ (∃ er, e = ProgressEvent.Failed er)))
      ∧ (submit_interactive_task statuses).1.countP
          (fun x => ProgressEvent.isTerminal x) = 1
      ∧ (submit_interactive_task statuses).2 = 1 := by
  have hmem : ∃ x ∈ statuses, x.isTerminal = true :=
    ⟨s, getLast_eq_some_mem statuses s hlast, hterm⟩
  obtain ⟨l, e, hle, hl, he⟩ := poll_decomp statuses hmem
  have hle' : (submit_interactive_task statuses).1 = l ++ [e] := hle
  refine ⟨⟨l, e, hle', hl, he, ?_⟩, ?_, rfl⟩
  · cases e with
    | Completed r => exact Or.inl ⟨r, rfl⟩
    | Failed er => exact Or.inr ⟨er, rfl⟩
    | Queued p => exact absurd he (by simp [ProgressEvent.isTerminal])
    | InProgress lg => exact absurd he (by simp [ProgressEvent.isTerminal])
  · rw [hle', List.countP_append]
    have hzero : l.countP (fun x => ProgressEvent.isTerminal x) = 0 :=
      List.countP_eq_zero.mpr (fun a ha => by simp [hl a ha])
    simp [hzero, List.countP_cons, he]

theorem claim_C9_poll_termination_witness :
    (submit_interactive_task
        [RemoteStatus.queued 2, RemoteStatus.queued 0,
         RemoteStatus.inProgress ["a", "b"], RemoteStatus.completed "R"]).1.countP
      (fun x => ProgressEvent.isTerminal x) = 1 :=
  (claim_C9_poll_termination
    [RemoteStatus.queued 2, RemoteStatus.queued 0,
     RemoteStatus.inProgress ["a", "b"], RemoteStatus.completed "R"]
    (RemoteStatus.completed "R") rfl rfl).2.1

end FalBot
